import Mathlib

/-!
Verification development for the 3D dice simulation core of the repository
(class Renderer3D in src/renderers/renderer2d.ts).  The physics/settlement
state machine, the result resolver and the dice-pool bookkeeping are embedded
shallowly: JavaScript numbers are idealised as exact rationals, `Date.now()`
timestamps as integers, and the single render-loop thread as explicit state
passing.  The procedural geometry pipeline (createDieGeometry /
extractFaceNormals / buildFaceNormals) is embedded over the exact ring
Z[sqrt 5][s], s = sqrt (10 + 2 sqrt 5), which contains every vertex
coordinate of the eight die meshes after a uniform positive rescaling.
-/

/-- The eight die types handled by Renderer3D (renderer2d.ts line 824:
the diceTypes array of buildFaceNormals). -/
inductive DieType where
  | d2 | d4 | d5 | d6 | d8 | d10 | d12 | d20
deriving DecidableEq, Repr, Fintype

/-- The number of sides encoded in the type tag: parseInt(type.substring(1))
(renderer2d.ts line 1117). -/
def DieType.sides : DieType → Nat
  | .d2 => 2
  | .d4 => 4
  | .d5 => 5
  | .d6 => 6
  | .d8 => 8
  | .d10 => 10
  | .d12 => 12
  | .d20 => 20

/-- A 3-component vector with rational coordinates (idealising THREE.Vector3). -/
structure VecQ where
  x : ℚ
  y : ℚ
  z : ℚ
deriving DecidableEq, Repr

/-- A quaternion with rational components (idealising THREE.Quaternion). -/
structure Quat where
  x : ℚ
  y : ℚ
  z : ℚ
  w : ℚ
deriving DecidableEq, Repr

/-- THREE.Vector3.applyQuaternion: t = 2 cross(q.xyz, v);
v' = v + q.w t + cross(q.xyz, t).  Polynomial, hence exact over the
rationals. -/
def applyQuaternion (q : Quat) (v : VecQ) : VecQ :=
  let tx : ℚ := 2 * (q.y * v.z - q.z * v.y)
  let ty : ℚ := 2 * (q.z * v.x - q.x * v.z)
  let tz : ℚ := 2 * (q.x * v.y - q.y * v.x)
  { x := v.x + q.w * tx + q.y * tz - q.z * ty
    y := v.y + q.w * ty + q.z * tx - q.x * tz
    z := v.z + q.w * tz + q.x * ty - q.y * tx }

/-- Squared euclidean length of a rational vector. -/
def VecQ.normSq (v : VecQ) : ℚ := v.x * v.x + v.y * v.y + v.z * v.z

/-- Exact stand-in for `worldNormal.normalize().dot(up)` with up = (0,1,0)
(renderer2d.ts lines 1129-1130).  The code computes d = w.y / length w
(THREE.normalize divides by `length || 1`, so the zero vector stays zero and
d = 0 there).  We represent d by its image under the strictly monotone
bijection x -> x * |x|, which is d * |d| = w.y * |w.y| / normSq w: a rational
number, whereas d itself involves a square root.  Being a strictly monotone
image, it induces exactly the same `>` comparisons (and the same ties) as d,
which is all getDieValue ever does with the dot products. -/
def upAlignKey (w : VecQ) : ℚ :=
  if w.normSq = 0 then 0 else w.y * |w.y| / w.normSq

/-- One entry of the Face-Normal Table as consumed at runtime:
a local-space face normal paired with the printed face value. -/
structure FaceNormal where
  normal : VecQ
  value : ℤ
deriving DecidableEq, Repr

/-- The dot-product key getDieValue associates to a table entry for a die
whose mesh has world orientation q (renderer2d.ts line 1129):
rotate the local normal by q, renormalize, dot with world up. -/
def entryKey (q : Quat) (fn : FaceNormal) : ℚ :=
  upAlignKey (applyQuaternion q fn.normal)

/-- One tracked die: the Die3D record of renderer2d.ts (lines 466-475).
`velocity` and `angularVelocity` are the euclidean magnitudes
`die.body.velocity.length()` and `die.body.angularVelocity.length()` that
checkSettled reads; `quat` is the mesh orientation (synced from the body
each frame before checkSettled runs); `meshId` / `bodyId` identify the
THREE scene object and the CANNON body owned by this die. -/
structure Die where
  type : DieType
  velocity : ℚ
  angularVelocity : ℚ
  quat : Quat
  settled : Bool
  settleFrames : Nat
  prerollValue : Option ℤ
  spawnTime : ℤ
  suspended : Bool
  meshId : Nat
  bodyId : Nat
deriving DecidableEq, Repr

/-- checkSettled's settleThreshold = 0.5 (renderer2d.ts line 1076). -/
def settleThreshold : ℚ := Rat.divInt 1 2

/-- checkSettled's settleFrames requirement = 10 (renderer2d.ts line 1077). -/
def settleFramesRequired : Nat := 10

/-- checkSettled's maxWaitTime = 4000 ms (renderer2d.ts line 1078). -/
def maxWaitTime : ℤ := 4000

/-- The body of checkSettled's forEach for one die (renderer2d.ts lines
1082-1103).  Returns the updated die together with this die's contribution
to the running `allSettled` flag (true when the branch taken leaves
`allSettled` untouched, false when it executes `allSettled = false`). -/
def checkDie (now : ℤ) (d : Die) : Die × Bool :=
  if d.suspended then
    (d, false)
  else if maxWaitTime < now - d.spawnTime then
    ({ d with settled := true }, true)
  else if d.velocity < settleThreshold ∧ d.angularVelocity < settleThreshold then
    if settleFramesRequired ≤ d.settleFrames + 1 then
      ({ d with settleFrames := d.settleFrames + 1, settled := true }, true)
    else
      ({ d with settleFrames := d.settleFrames + 1 }, false)
  else
    ({ d with settled := false, settleFrames := 0 }, false)

/-- Math.floor(Math.random() * sides) + 1, with the RNG draw
rand ∈ [0,1) made explicit (renderer2d.ts lines 1119 and 1123). -/
def randFallback (rand : ℚ) (sides : Nat) : ℤ :=
  ⌊rand * (sides : ℚ)⌋ + 1

/-- getDieValue (renderer2d.ts lines 1116-1137).  The runtime face-normal
table for the die's type and the RNG draw are passed explicitly.  The fold
accumulator mirrors (bestDot, bestValue) with bestDot = -Infinity encoded
as `none` (every finite dot compares greater than -Infinity, and the code's
comparison is the strict `dot > bestDot`); dots are represented by their
order-preserving `upAlignKey` image. -/
def getDieValue (resultByPhysics : Bool) (faceNormals : List FaceNormal)
    (rand : ℚ) (d : Die) : ℤ :=
  let sides := d.type.sides
  if !resultByPhysics then
    match d.prerollValue with
    | some v => v
    | none => randFallback rand sides
  else if faceNormals.isEmpty then
    randFallback rand sides
  else
    (faceNormals.foldl
      (fun acc fn =>
        let dk := entryKey d.quat fn
        match acc.1 with
        | none => (some dk, fn.value)
        | some best => if best < dk then (some dk, fn.value) else acc)
      (none, 1)).2

/-- The Renderer3D state relevant to the dice-pool claims: the dice array,
the scene's and the physics world's object lists (by id), the one-shot
settle callback (modelled by whether one is registered), the
resultByPhysics flag, and the cached per-type face-normal tables. -/
structure RState where
  dice : List Die
  sceneMeshes : List Nat
  worldBodies : List Nat
  settleCallback : Bool
  resultByPhysics : Bool
  faceNormalsOf : DieType → List FaceNormal

/-- checkSettled (renderer2d.ts lines 1075-1114).  Updates every die via
checkDie, folds their contributions into `allSettled`, and when
allSettled ∧ dice nonempty ∧ a callback is registered, emits the results
list and clears the callback.  The emitted list (if any) is returned as the
second component; `rand` stands for the RNG draws consumed by getDieValue. -/
def checkSettled (now : ℤ) (rand : ℚ) (s : RState) :
    RState × Option (List (DieType × ℤ)) :=
  let stepped := s.dice.map (checkDie now)
  let dice' := stepped.map Prod.fst
  let allSettled := stepped.all Prod.snd
  if allSettled ∧ 0 < dice'.length ∧ s.settleCallback then
    let results := dice'.map
      (fun d => (d.type, getDieValue s.resultByPhysics (s.faceNormalsOf d.type) rand d))
    ({ s with dice := dice', settleCallback := false }, some results)
  else
    ({ s with dice := dice' }, none)

/-- addDie (renderer2d.ts lines 940-998): pushes a fresh active die
(settled = false, settleFrames = 0, suspended = false, spawnTime = now)
and adds its mesh to the scene and its body to the world.  The randomized
initial orientation and throw/spin velocities are passed in as the values
the RNG produced. -/
def addDie (type : DieType) (prerollValue : Option ℤ) (now : ℤ)
    (vel angVel : ℚ) (q : Quat) (meshId bodyId : Nat) (s : RState) : RState :=
  let die : Die :=
    { type := type, velocity := vel, angularVelocity := angVel, quat := q
      settled := false, settleFrames := 0, prerollValue := prerollValue
      spawnTime := now, suspended := false, meshId := meshId, bodyId := bodyId }
  { s with dice := s.dice ++ [die]
           sceneMeshes := s.sceneMeshes ++ [meshId]
           worldBodies := s.worldBodies ++ [bodyId] }

/-- spawnSuspendedDie (renderer2d.ts lines 1000-1030): pushes a motionless
suspended die (mass 0 / static in the source, modelled by the suspended
flag and zero velocities) and registers mesh and body. -/
def spawnSuspendedDie (type : DieType) (now : ℤ) (q : Quat)
    (meshId bodyId : Nat) (s : RState) : RState :=
  let die : Die :=
    { type := type, velocity := 0, angularVelocity := 0, quat := q
      settled := false, settleFrames := 0, prerollValue := none
      spawnTime := now, suspended := true, meshId := meshId, bodyId := bodyId }
  { s with dice := s.dice ++ [die]
           sceneMeshes := s.sceneMeshes ++ [meshId]
           worldBodies := s.worldBodies ++ [bodyId] }

/-- releaseSuspendedDice (renderer2d.ts lines 1032-1064): every suspended
die becomes dynamic, its settle timer restarts (spawnTime = Date.now())
and it receives the given throw and spin velocities. -/
def releaseSuspendedDice (now : ℤ) (vel angVel : ℚ) (s : RState) : RState :=
  { s with dice := s.dice.map (fun d =>
      if d.suspended then
        { d with suspended := false, spawnTime := now
                 velocity := vel, angularVelocity := angVel }
      else d) }

/-- clearDice (renderer2d.ts lines 1066-1073): for every tracked die the
mesh is removed from the scene and the body from the world
(Object3D.remove / World.removeBody each delete one occurrence), then the
dice array is emptied. -/
def clearDice (s : RState) : RState :=
  { s with dice := []
           sceneMeshes := s.dice.foldl (fun sc d => sc.erase d.meshId) s.sceneMeshes
           worldBodies := s.dice.foldl (fun wb d => wb.erase d.bodyId) s.worldBodies }

/-- getDiceCount (renderer2d.ts lines 1164-1166). -/
def getDiceCount (s : RState) : Nat := s.dice.length

/-- onSettled (renderer2d.ts lines 1168-1170): (re)registers the one-shot
settle callback, overwriting any previous registration. -/
def onSettled (s : RState) : RState := { s with settleCallback := true }

/-- setResultByPhysics (renderer2d.ts lines 1178-1180). -/
def setResultByPhysics (b : Bool) (s : RState) : RState :=
  { s with resultByPhysics := b }

/-!
Exact arithmetic for the geometry pipeline.

All vertex coordinates produced by createDieGeometry (renderer2d.ts lines
755-816) lie, after a uniform positive per-type rescaling, in the ring
Z[sqrt 5][s] with s = sqrt (10 + 2 sqrt 5):
cos 72 = (sqrt 5 - 1)/4 and sin 72 = s/4 cover the d5/d10 dipyramid, the
golden ratio covers the dodecahedron and icosahedron, and the remaining
solids are rational.  Uniform positive rescaling multiplies every
triangle-normal cross product by a positive scalar, so it changes neither
which normals are equal as directions nor the face counts; likewise
skipping PolyhedronGeometry's applyRadius step (for these solids every
canonical vertex has the same norm, so applyRadius is itself a uniform
positive rescaling).
-/

/-- An element a + b * sqrt 5 of Z[sqrt 5]. -/
structure Z5 where
  a : ℤ
  b : ℤ
deriving DecidableEq, Repr

namespace Z5

def zero : Z5 := ⟨0, 0⟩
def ofInt (n : ℤ) : Z5 := ⟨n, 0⟩
def add (x y : Z5) : Z5 := ⟨x.a + y.a, x.b + y.b⟩
def neg (x : Z5) : Z5 := ⟨-x.a, -x.b⟩
def sub (x y : Z5) : Z5 := ⟨x.a - y.a, x.b - y.b⟩
def mul (x y : Z5) : Z5 := ⟨x.a * y.a + 5 * (x.b * y.b), x.a * y.b + x.b * y.a⟩

instance : Add Z5 := ⟨add⟩
instance : Neg Z5 := ⟨neg⟩
instance : Sub Z5 := ⟨sub⟩
instance : Mul Z5 := ⟨mul⟩

/-- Decides 0 < a + b * sqrt 5 by sign analysis and squaring. -/
def posB (x : Z5) : Bool :=
  if x.b = 0 then 0 < x.a
  else if 0 < x.b then (0 ≤ x.a) || (x.a * x.a < 5 * (x.b * x.b))
  else (0 < x.a) && (5 * (x.b * x.b) < x.a * x.a)

/-- Decides 0 ≤ a + b * sqrt 5. -/
def nonnegB (x : Z5) : Bool := (x = zero) || x.posB

end Z5

/-- An element u + v * s of Z[sqrt 5][s], s = sqrt (10 + 2 sqrt 5). -/
structure GS where
  u : Z5
  v : Z5
deriving DecidableEq, Repr

namespace GS

/-- The square of s: s * s = 10 + 2 * sqrt 5. -/
def sigma : Z5 := ⟨10, 2⟩

def zero : GS := ⟨Z5.zero, Z5.zero⟩
def ofInt (n : ℤ) : GS := ⟨Z5.ofInt n, Z5.zero⟩
/-- The element (a + b * sqrt 5). -/
def of5 (a b : ℤ) : GS := ⟨⟨a, b⟩, Z5.zero⟩
/-- The element (a + b * sqrt 5) * s. -/
def ofS (a b : ℤ) : GS := ⟨Z5.zero, ⟨a, b⟩⟩

def add (x y : GS) : GS := ⟨x.u + y.u, x.v + y.v⟩
def neg (x : GS) : GS := ⟨Z5.neg x.u, Z5.neg x.v⟩
def sub (x y : GS) : GS := ⟨x.u - y.u, x.v - y.v⟩
def mul (x y : GS) : GS := ⟨x.u * y.u + sigma * (x.v * y.v), x.u * y.v + x.v * y.u⟩

instance : Add GS := ⟨add⟩
instance : Neg GS := ⟨neg⟩
instance : Sub GS := ⟨sub⟩
instance : Mul GS := ⟨mul⟩

/-- Decides 0 < u + v * s (s = sqrt (10 + 2 sqrt 5) > 0) by sign analysis
in Z[sqrt 5] and squaring. -/
def posB (x : GS) : Bool :=
  if x.v = Z5.zero then x.u.posB
  else if x.v.posB then
    x.u.nonnegB || (sigma * (x.v * x.v) - x.u * x.u).posB
  else
    x.u.posB && (x.u * x.u - sigma * (x.v * x.v)).posB

end GS

/-- A 3-vector over the geometry ring. -/
structure V3G where
  x : GS
  y : GS
  z : GS
deriving DecidableEq, Repr

namespace V3G

def zero : V3G := ⟨GS.zero, GS.zero, GS.zero⟩
def sub (p q : V3G) : V3G := ⟨p.x - q.x, p.y - q.y, p.z - q.z⟩
def cross (p q : V3G) : V3G :=
  ⟨p.y * q.z - p.z * q.y, p.z * q.x - p.x * q.z, p.x * q.y - p.y * q.x⟩
def dot (p q : V3G) : GS := p.x * q.x + p.y * q.y + p.z * q.z

end V3G

/-- A triangle of the non-indexed position stream. -/
def TriG := V3G × V3G × V3G

/-- The (unnormalized) triangle normal subVectors(b,a).cross(subVectors(c,a))
of renderer2d.ts lines 860-862; normalization only rescales it by a
positive factor. -/
def triNormal (t : TriG) : V3G :=
  V3G.cross (V3G.sub t.2.1 t.1) (V3G.sub t.2.2 t.1)

/-- Whether two nonzero vectors point in exactly the same direction, i.e.
have equal normalizations: parallel (zero cross product) and positively
aligned (positive dot product).  In exact arithmetic this is precisely when
the source's dedup key (each normalized component rounded to 3 decimals,
renderer2d.ts line 865) coincides; faces of the die meshes that are not
equal as directions differ by far more than the 0.001 rounding quantum. -/
def sameRay (p q : V3G) : Bool := (V3G.cross p q = V3G.zero) && (V3G.dot p q).posB

/-- Order-preserving first-occurrence deduplication of normals, mirroring
the insertion-ordered Map of extractFaceNormals (renderer2d.ts lines
854-871). -/
def dedupRays (l : List V3G) : List V3G :=
  l.foldl (fun acc n => if acc.any (fun m => sameRay m n) then acc else acc ++ [n]) []

/-- extractFaceNormals (renderer2d.ts lines 847-873): walk the non-indexed
triangle stream, form each cross-product normal, drop those rejected by the
filter, and keep the first representative of each direction in encounter
order. -/
def extractFaceNormals (tris : List TriG) (filter : V3G → Bool) : List V3G :=
  dedupRays ((tris.map triNormal).filter filter)

/-- Group a flat index list into consecutive triples. -/
def triplesOf : List Nat → List (Nat × Nat × Nat)
  | a :: b :: c :: rest => (a, b, c) :: triplesOf rest
  | _ => []

/-- The triangle stream of an indexed geometry: each index triple looks up
its vertices (BufferGeometry.toNonIndexed). -/
def streamOf (verts : List V3G) (idx : List Nat) : List TriG :=
  (triplesOf idx).map (fun t =>
    (verts.getD t.1 V3G.zero, verts.getD t.2.1 V3G.zero, verts.getD t.2.2 V3G.zero))

/-- Integer-coordinate vector. -/
def vgi (x y z : ℤ) : V3G := ⟨GS.ofInt x, GS.ofInt y, GS.ofInt z⟩

/-- Sign factor (2 * i - 1) for the two grid positions of a box plane. -/
def bl (i : Bool) : ℤ := if i then 1 else -1

/-- The two triangles of one buildPlane call of THREE.BoxGeometry with
1x1 segments: vertex (ix, iy) at index iy * 2 + ix, index triangles
(a, b, d) = (0, 2, 1) and (b, c, d) = (2, 3, 1). -/
def planeQuadTris (corner : Bool → Bool → V3G) : List TriG :=
  [ (corner false false, corner false true, corner true false),
    (corner false true, corner true true, corner true false) ]

/-- The 12-triangle stream of THREE.BoxGeometry(width, height, depth):
the px, nx, py, ny, pz, nz buildPlane calls in order.  Coordinates are
doubled relative to THREE's ((i - 1/2) * size, size/2) formulas to stay
integral; a uniform positive rescaling. -/
def boxTris (w h d : ℤ) : List TriG :=
  planeQuadTris (fun ix iy => vgi w (-(bl iy) * h) (-(bl ix) * d)) ++
  planeQuadTris (fun ix iy => vgi (-w) (-(bl iy) * h) (bl ix * d)) ++
  planeQuadTris (fun ix iy => vgi (bl ix * w) h (bl iy * d)) ++
  planeQuadTris (fun ix iy => vgi (bl ix * w) (-h) (-(bl iy) * d)) ++
  planeQuadTris (fun ix iy => vgi (bl ix * w) (-(bl iy) * h) d) ++
  planeQuadTris (fun ix iy => vgi (-(bl ix) * w) (-(bl iy) * h) (-d))

/-- THREE.TetrahedronGeometry canonical vertices. -/
def tetraVerts : List V3G :=
  [vgi 1 1 1, vgi (-1) (-1) 1, vgi (-1) 1 (-1), vgi 1 (-1) (-1)]

/-- THREE.TetrahedronGeometry canonical indices. -/
def tetraIdx : List Nat := [2, 1, 0, 0, 3, 2, 1, 3, 0, 2, 3, 1]

/-- THREE.OctahedronGeometry canonical vertices. -/
def octaVerts : List V3G :=
  [vgi 1 0 0, vgi (-1) 0 0, vgi 0 1 0, vgi 0 (-1) 0, vgi 0 0 1, vgi 0 0 (-1)]

/-- THREE.OctahedronGeometry canonical indices. -/
def octaIdx : List Nat :=
  [0, 2, 4, 0, 4, 3, 0, 3, 5, 0, 5, 2, 1, 2, 5, 1, 5, 3, 1, 3, 4, 1, 4, 2]

/-- THREE.IcosahedronGeometry canonical vertices, doubled: 2t = 1 + sqrt 5
where t is the golden ratio. -/
def icosaVerts : List V3G :=
  let t : GS := GS.of5 1 1
  let n : GS := GS.of5 (-1) (-1)
  let g2 : GS := GS.ofInt 2
  let m2 : GS := GS.ofInt (-2)
  let z : GS := GS.ofInt 0
  [⟨m2, t, z⟩, ⟨g2, t, z⟩, ⟨m2, n, z⟩, ⟨g2, n, z⟩,
   ⟨z, m2, t⟩, ⟨z, g2, t⟩, ⟨z, m2, n⟩, ⟨z, g2, n⟩,
   ⟨t, z, m2⟩, ⟨t, z, g2⟩, ⟨n, z, m2⟩, ⟨n, z, g2⟩]

/-- THREE.IcosahedronGeometry canonical indices. -/
def icosaIdx : List Nat :=
  [0, 11, 5, 0, 5, 1, 0, 1, 7, 0, 7, 10, 0, 10, 11,
   1, 5, 9, 5, 11, 4, 11, 10, 2, 10, 7, 6, 7, 1, 8,
   3, 9, 4, 3, 4, 2, 3, 2, 6, 3, 6, 8, 3, 8, 9,
   4, 9, 5, 2, 4, 11, 6, 2, 10, 8, 6, 7, 9, 8, 1]

/-- THREE.DodecahedronGeometry canonical vertices, doubled: 2t = 1 + sqrt 5,
2r = 2/t = sqrt 5 - 1. -/
def dodecaVerts : List V3G :=
  let t : GS := GS.of5 1 1
  let nt : GS := GS.of5 (-1) (-1)
  let r : GS := GS.of5 (-1) 1
  let nr : GS := GS.of5 1 (-1)
  let p : GS := GS.ofInt 2
  let m : GS := GS.ofInt (-2)
  let z : GS := GS.ofInt 0
  [⟨m, m, m⟩, ⟨m, m, p⟩, ⟨m, p, m⟩, ⟨m, p, p⟩,
   ⟨p, m, m⟩, ⟨p, m, p⟩, ⟨p, p, m⟩, ⟨p, p, p⟩,
   ⟨z, nr, nt⟩, ⟨z, nr, t⟩, ⟨z, r, nt⟩, ⟨z, r, t⟩,
   ⟨nr, nt, z⟩, ⟨nr, t, z⟩, ⟨r, nt, z⟩, ⟨r, t, z⟩,
   ⟨nt, z, nr⟩, ⟨t, z, nr⟩, ⟨nt, z, r⟩, ⟨t, z, r⟩]

/-- THREE.DodecahedronGeometry canonical indices (36 triangles, three per
pentagonal face). -/
def dodecaIdx : List Nat :=
  [3, 11, 7, 3, 7, 15, 3, 15, 13,
   7, 19, 17, 7, 17, 6, 7, 6, 15,
   17, 4, 8, 17, 8, 10, 17, 10, 6,
   8, 0, 16, 8, 16, 2, 8, 2, 10,
   0, 12, 1, 0, 1, 18, 0, 18, 16,
   6, 10, 2, 6, 2, 13, 6, 13, 15,
   2, 16, 18, 2, 18, 3, 2, 3, 13,
   18, 1, 9, 18, 9, 11, 18, 11, 3,
   4, 14, 12, 4, 12, 0, 4, 0, 8,
   11, 9, 5, 11, 5, 19, 11, 19, 7,
   19, 5, 14, 19, 14, 4, 19, 4, 17,
   1, 12, 14, 1, 14, 5, 1, 5, 9]

/-- The pentagonal-dipyramid vertices of the d10 (and d5) geometry
(renderer2d.ts lines 773-780 and 797-804), scaled by 40: two apexes
(0, +-1.2, 0) -> (0, +-48, 0) and five equatorial points
(sin (0.4 pi k), 0, cos (0.4 pi k)) -> 40 * that, written exactly via
cos 72 = (sqrt 5 - 1)/4 and sin 72 = s/4 with s = sqrt (10 + 2 sqrt 5). -/
def dipyramidVerts : List V3G :=
  let z : GS := GS.ofInt 0
  [vgi 0 48 0, vgi 0 (-48) 0,
   vgi 0 0 40,
   ⟨GS.ofS 10 0, z, GS.of5 (-10) 10⟩,
   ⟨GS.ofS (-5) 5, z, GS.of5 (-10) (-10)⟩,
   ⟨GS.ofS 5 (-5), z, GS.of5 (-10) (-10)⟩,
   ⟨GS.ofS (-10) 0, z, GS.of5 (-10) 10⟩]

/-- The dipyramid index list (renderer2d.ts lines 768-771 and 792-795). -/
def dipyramidIdx : List Nat :=
  [0, 3, 2, 0, 4, 3, 0, 5, 4, 0, 6, 5, 0, 2, 6,
   1, 2, 3, 1, 3, 4, 1, 4, 5, 1, 5, 6, 1, 6, 2]

/-- createDieGeometry (renderer2d.ts lines 755-816), as the non-indexed
triangle stream its BufferGeometry yields, over the exact ring.  Each
type's mesh is uniformly rescaled by a positive factor to integral
coordinates (boxes scaled by 10, polyhedra by 2, the dipyramid by 40;
PolyhedronGeometry's applyRadius normalization is itself a uniform
rescaling for these solids since all canonical vertices share one norm). -/
def createDieGeometry : DieType → List TriG
  | .d2 => boxTris 6 2 6
  | .d4 => streamOf tetraVerts tetraIdx
  | .d5 => streamOf dipyramidVerts dipyramidIdx
  | .d6 => boxTris 7 7 7
  | .d8 => streamOf octaVerts octaIdx
  | .d10 => streamOf dipyramidVerts dipyramidIdx
  | .d12 => streamOf dodecaVerts dodecaIdx
  | .d20 => streamOf icosaVerts icosaIdx

/-- The normal filter passed by buildFaceNormals (renderer2d.ts lines
827-832): for the d2 coin keep only normals with |normal.y| > 0.9 (on the
normalized normal; equivalently 100 y^2 > 81 |N|^2 on the unnormalized
one), everything else passes. -/
def normalFilter (t : DieType) (n : V3G) : Bool :=
  if t = DieType.d2 then
    (GS.ofInt 100 * (n.y * n.y) - GS.ofInt 81 * V3G.dot n n).posB
  else true

/-- buildFaceNormals (renderer2d.ts lines 823-845): per type, extract the
unique face normals of its geometry and label them 1, 2, 3, ... in
encounter order, except the d5 whose ten faces are labelled
(index mod 5) + 1. -/
def faceNormalTable (t : DieType) : List (V3G × ℤ) :=
  let normals := extractFaceNormals (createDieGeometry t) (normalFilter t)
  normals.enum.map (fun p =>
    (p.2, if t = DieType.d5 then ((p.1 % 5 : ℕ) : ℤ) + 1 else (p.1 : ℤ) + 1))

/-!
Auxiliary definitions used by the theorems below: an accumulator-explicit
form of getDieValue's best-face fold, per-frame motion samples for the
settlement state machine, and concrete fixtures used to instantiate the
theorems at closed inputs.
-/

/-- The tail of getDieValue's forEach once bestDot has become finite:
starting from (bestDot, bestValue) = (b, v), scan the remaining entries,
replacing the best on a strict improvement of the key. -/
def specSelect (q : Quat) (b : ℚ) (v : ℤ) : List FaceNormal → ℚ × ℤ
  | [] => (b, v)
  | fn :: rest =>
      if b < entryKey q fn then specSelect q (entryKey q fn) fn.value rest
      else specSelect q b v rest

/-- One frame's observation of a die's body between two settlement checks:
the Date.now() timestamp of the check and the linear and angular velocity
magnitudes the physics left on the body. -/
structure Sample where
  now : ℤ
  vel : ℚ
  angVel : ℚ

/-- Whether a sample is below both halves of checkSettled's motion test
(renderer2d.ts line 1091). -/
def lowMotion (smp : Sample) : Prop :=
  smp.vel < settleThreshold ∧ smp.angVel < settleThreshold

instance (smp : Sample) : Decidable (lowMotion smp) :=
  inferInstanceAs (Decidable (_ ∧ _))

/-- One frame acting on one die: the physics writes the sampled velocities
to the body, then checkSettled's per-die step runs. -/
def stepSample (d : Die) (smp : Sample) : Die :=
  (checkDie smp.now { d with velocity := smp.vel, angularVelocity := smp.angVel }).1

/-- A die observed over a sequence of frames. -/
def runDieChecks (d : Die) (samples : List Sample) : Die :=
  samples.foldl stepSample d

/-- The length of the trailing run of consecutive low-motion samples (the
count restarts at every sample at or above the threshold), which is what
the settleFrames counter tracks. -/
def trailingLowCount (samples : List Sample) : Nat :=
  samples.foldl (fun n smp => if lowMotion smp then n + 1 else 0) 0

/-- The identity orientation. -/
def qId : Quat := ⟨0, 0, 0, 1⟩

/-- Fixture: an active d6 with preroll value 3, spawned at time 0, still
moving fast (velocity far above the threshold). -/
def dieFast : Die :=
  { type := DieType.d6, velocity := 37, angularVelocity := 21, quat := qId
    settled := false, settleFrames := 0, prerollValue := some 3
    spawnTime := 0, suspended := false, meshId := 1, bodyId := 11 }

/-- Fixture: a suspended d20 spawned at time 0. -/
def dieHeld : Die :=
  { type := DieType.d20, velocity := 0, angularVelocity := 0, quat := qId
    settled := false, settleFrames := 0, prerollValue := none
    spawnTime := 0, suspended := true, meshId := 2, bodyId := 12 }

/-- Fixture: a motionless, already-settled d4. -/
def dieStill : Die :=
  { type := DieType.d4, velocity := 0, angularVelocity := 0, quat := qId
    settled := true, settleFrames := 20, prerollValue := some 2
    spawnTime := 0, suspended := false, meshId := 3, bodyId := 13 }

/-- Fixture: a pool state holding the given dice with a registered settle
callback, physics-results disabled, and empty runtime normal tables. -/
def mkState (dice : List Die) : RState :=
  { dice := dice
    sceneMeshes := dice.map Die.meshId
    worldBodies := dice.map Die.bodyId
    settleCallback := true
    resultByPhysics := false
    faceNormalsOf := fun _ => [] }

/-- Fixture: a two-entry runtime face-normal table (up face and down face). -/
def tableUpDown : List FaceNormal :=
  [⟨⟨0, 1, 0⟩, 1⟩, ⟨⟨0, -1, 0⟩, 2⟩]

/-- Fixture: a low-motion sample at timestamp 16. -/
def calmSample : Sample := ⟨16, 0, 0⟩

/-!
Theorems.  First a toolbox of small lemmas about the per-die step and the
pool-level check, then one theorem per specification claim (with witnesses
instantiating every hypothesis at closed inputs).
-/

theorem checkDie_suspended_eq (now : ℤ) (d : Die) (hs : d.suspended = true) :
    checkDie now d = (d, false) := by
  simp [checkDie, hs]

theorem checkDie_timeout_eq (now : ℤ) (d : Die) (hs : d.suspended = false)
    (ht : maxWaitTime < now - d.spawnTime) :
    checkDie now d = ({ d with settled := true }, true) := by
  simp [checkDie, hs, ht]

theorem checkDie_preserves (now : ℤ) (d : Die) :
    (checkDie now d).1.type = d.type ∧
    (checkDie now d).1.prerollValue = d.prerollValue ∧
    (checkDie now d).1.quat = d.quat ∧
    (checkDie now d).1.suspended = d.suspended ∧
    (checkDie now d).1.spawnTime = d.spawnTime := by
  unfold checkDie
  repeat' split
  all_goals exact ⟨rfl, rfl, rfl, rfl, rfl⟩

theorem checkDie_snd_true {now : ℤ} {d : Die} (h : (checkDie now d).2 = true) :
    (checkDie now d).1.settled = true ∧ (checkDie now d).1.suspended = false := by
  by_cases hs : d.suspended = true
  · rw [checkDie_suspended_eq now d hs] at h
    exact absurd h (by simp)
  · have hs' : d.suspended = false := by simpa using hs
    by_cases ht : maxWaitTime < now - d.spawnTime
    · rw [checkDie_timeout_eq now d hs' ht]
      exact ⟨rfl, hs'⟩
    · by_cases hlow : d.velocity < settleThreshold ∧ d.angularVelocity < settleThreshold
      · by_cases hsf : settleFramesRequired ≤ d.settleFrames + 1
        · simp [checkDie, hs', ht, hlow, hsf]
        · simp [checkDie, hs', ht, hlow, hsf] at h
      · simp [checkDie, hs', ht, hlow] at h

theorem checkSettled_dice_eq (now : ℤ) (rand : ℚ) (s : RState) :
    (checkSettled now rand s).1.dice = (s.dice.map (checkDie now)).map Prod.fst := by
  simp only [checkSettled]
  split
  · rfl
  · rfl

theorem checkSettled_some_iff (now : ℤ) (rand : ℚ) (s : RState) :
    (checkSettled now rand s).2.isSome = true ↔
      ((s.dice.map (checkDie now)).all Prod.snd = true ∧
        s.dice ≠ [] ∧ s.settleCallback = true) := by
  simp only [checkSettled]
  split
  · rename_i hc
    obtain ⟨h1, h2, h3⟩ := hc
    simp only [Option.isSome_some, true_iff]
    refine ⟨h1, ?_, h3⟩
    intro hnil
    simp [hnil] at h2
  · rename_i hc
    constructor
    · intro h
      exact absurd h (by simp)
    · intro ⟨h1, h2, h3⟩
      exact absurd ⟨h1, by simpa using List.length_pos.mpr h2, h3⟩ hc

theorem checkSettled_results_eq {now : ℤ} {rand : ℚ} {s : RState}
    {rs : List (DieType × ℤ)} (h : (checkSettled now rand s).2 = some rs) :
    rs = ((s.dice.map (checkDie now)).map Prod.fst).map
      (fun d => (d.type, getDieValue s.resultByPhysics (s.faceNormalsOf d.type) rand d)) := by
  simp only [checkSettled] at h
  split at h
  · simpa using h.symm
  · exact absurd h (by simp)

theorem checkSettled_callback_of_some {now : ℤ} {rand : ℚ} {s : RState}
    {rs : List (DieType × ℤ)} (h : (checkSettled now rand s).2 = some rs) :
    (checkSettled now rand s).1.settleCallback = false := by
  simp only [checkSettled] at h ⊢
  split at h
  · rename_i hc
    rw [if_pos hc]
  · exact absurd h (by simp)

theorem checkSettled_none_of_callback_false (now : ℤ) (rand : ℚ) (s : RState)
    (h : s.settleCallback = false) : (checkSettled now rand s).2 = none := by
  simp only [checkSettled]
  split
  · rename_i hc
    rw [h] at hc
    exact absurd hc.2.2 (by simp)
  · rfl

theorem checkSettled_none_of_all_false (now : ℤ) (rand : ℚ) (s : RState)
    (h : (s.dice.map (checkDie now)).all Prod.snd = false) :
    (checkSettled now rand s).2 = none := by
  simp only [checkSettled]
  split
  · rename_i hc
    rw [h] at hc
    exact absurd hc.1 (by simp)
  · rfl

theorem getDieValue_preroll (fns : List FaceNormal) (rand : ℚ) (d : Die)
    (v : ℤ) (h : d.prerollValue = some v) :
    getDieValue false fns rand d = v := by
  simp [getDieValue, h]

/-- C1: for every die that is not suspended, once the wall-clock time since
its spawn (or release) exceeds the 4000 ms timeout, a single
settlement-check step marks that die settled regardless of its velocities;
consequently, with a callback registered and a non-empty pool containing no
suspended dice, the settlement check fires the callback (with one resolved
value per die) as soon as every die is past its timeout — so the callback
always eventually fires. -/
theorem timeout_forces_settle_and_fire (s : RState) (now : ℤ) (rand : ℚ)
    (hcb : s.settleCallback = true) (hne : s.dice ≠ [])
    (hall : ∀ d ∈ s.dice, d.suspended = false ∧ maxWaitTime < now - d.spawnTime) :
    (checkSettled now rand s).2.isSome = true ∧
    (∀ rs, (checkSettled now rand s).2 = some rs → rs.length = s.dice.length) ∧
    (∀ d ∈ (checkSettled now rand s).1.dice, d.settled = true) := by
  have hstep : ∀ d ∈ s.dice, checkDie now d = ({ d with settled := true }, true) :=
    fun d hd => checkDie_timeout_eq now d (hall d hd).1 (hall d hd).2
  have hallb : (s.dice.map (checkDie now)).all Prod.snd = true := by
    rw [List.all_eq_true]
    intro x hx
    obtain ⟨d, hd, rfl⟩ := List.mem_map.mp hx
    rw [hstep d hd]
  refine ⟨(checkSettled_some_iff now rand s).mpr ⟨hallb, hne, hcb⟩, ?_, ?_⟩
  · intro rs hrs
    rw [checkSettled_results_eq hrs]
    simp
  · intro d hd
    rw [checkSettled_dice_eq] at hd
    obtain ⟨x, hx, rfl⟩ := List.mem_map.mp hd
    obtain ⟨d0, hd0, rfl⟩ := List.mem_map.mp hx
    rw [hstep d0 hd0]

/-- Witness for C1: a single fast-moving d6 spawned at time 0, checked at
time 4200 with a registered callback. -/
theorem timeout_forces_settle_and_fire_witness :
    ((mkState [dieFast]).settleCallback = true ∧
      (mkState [dieFast]).dice ≠ [] ∧
      (∀ d ∈ (mkState [dieFast]).dice,
        d.suspended = false ∧ maxWaitTime < 4200 - d.spawnTime)) ∧
    ((checkSettled 4200 0 (mkState [dieFast])).2.isSome = true ∧
      (∀ rs, (checkSettled 4200 0 (mkState [dieFast])).2 = some rs →
        rs.length = (mkState [dieFast]).dice.length) ∧
      (∀ d ∈ (checkSettled 4200 0 (mkState [dieFast])).1.dice, d.settled = true)) :=
  ⟨⟨rfl, by decide, by decide⟩,
    timeout_forces_settle_and_fire (mkState [dieFast]) 4200 0 rfl (by decide) (by decide)⟩

/-- C2 counterexample: in the state reached right after the callback fired
(one settled d6 still in the pool, callback cleared), registering a new
callback via onSettled and letting the render loop run one more settlement
check and no addDie/spawnSuspendedDie in between, the callback fires a
second time: both checks below return `some` results. -/
theorem settle_callback_refires_counterexample :
    (checkSettled 4200 0 (mkState [dieFast])).2.isSome = true ∧
    (checkSettled 4300 0
        (onSettled (checkSettled 4200 0 (mkState [dieFast])).1)).2.isSome = true := by
  decide

/-- C2 amended: the settle callback fires at most once per registration and
is cleared immediately upon firing — after a fire, every further settlement
check returns none until onSettled registers a new callback.  (A new
registration made while the settled pool is still present can however fire
immediately again, as the counterexample shows.) -/
theorem settle_callback_once_per_registration (s : RState) (now : ℤ) (rand : ℚ)
    (rs : List (DieType × ℤ)) (hfire : (checkSettled now rand s).2 = some rs) :
    (checkSettled now rand s).1.settleCallback = false ∧
    (∀ now' rand',
      (checkSettled now' rand' (checkSettled now rand s).1).2 = none) := by
  have hcb := checkSettled_callback_of_some hfire
  exact ⟨hcb, fun now' rand' => checkSettled_none_of_callback_false now' rand' _ hcb⟩

/-- Witness for the amended C2 at the concrete firing state. -/
theorem settle_callback_once_per_registration_witness :
    ((checkSettled 4200 0 (mkState [dieFast])).2 = some [(DieType.d6, (3 : ℤ))]) ∧
    ((checkSettled 4200 0 (mkState [dieFast])).1.settleCallback = false ∧
      (∀ now' rand',
        (checkSettled now' rand'
          (checkSettled 4200 0 (mkState [dieFast])).1).2 = none)) :=
  ⟨by decide,
    settle_callback_once_per_registration (mkState [dieFast]) 4200 0
      [(DieType.d6, (3 : ℤ))] (by decide)⟩

/-- C3: with the physics-result mode disabled, the value reported in the
settle callback for a die created with a preroll value equals that preroll
value, whatever the die's final orientation (and all other state). -/
theorem preroll_value_reported (s : RState) (now : ℤ) (rand : ℚ)
    (rs : List (DieType × ℤ)) (i : Nat) (v : ℤ)
    (hrbp : s.resultByPhysics = false)
    (hfire : (checkSettled now rand s).2 = some rs)
    (hi : i < s.dice.length)
    (hpre : s.dice[i].prerollValue = some v) :
    rs[i]? = some (s.dice[i].type, v) := by
  rw [checkSettled_results_eq hfire]
  rw [List.getElem?_map, List.getElem?_map, List.getElem?_map,
    List.getElem?_eq_getElem hi]
  have hp := checkDie_preserves now s.dice[i]
  have hval : getDieValue s.resultByPhysics
      (s.faceNormalsOf (checkDie now s.dice[i]).1.type) rand
      (checkDie now s.dice[i]).1 = v := by
    rw [hrbp]
    exact getDieValue_preroll _ rand _ v (hp.2.1.trans hpre)
  simp only [Option.map_some']
  rw [hval, hp.1]

/-- Witness for C3: the preroll-3 d6 fires at time 4200 and reports 3. -/
theorem preroll_value_reported_witness :
    ((mkState [dieFast]).resultByPhysics = false ∧
      (checkSettled 4200 0 (mkState [dieFast])).2 = some [(DieType.d6, (3 : ℤ))] ∧
      0 < (mkState [dieFast]).dice.length ∧
      (mkState [dieFast]).dice[0].prerollValue = some 3) ∧
    [(DieType.d6, (3 : ℤ))][0]? = some ((mkState [dieFast]).dice[0].type, 3) :=
  ⟨⟨rfl, by decide, by decide, by decide⟩,
    preroll_value_reported (mkState [dieFast]) 4200 0 [(DieType.d6, (3 : ℤ))] 0 3
      rfl (by decide) (by decide) (by decide)⟩

/-- C6: while any die is suspended, pool-level settlement is never declared
(the check returns no results); and whenever the check does fire, the pool
was non-empty and every die ends the check settled and not suspended. -/
theorem suspended_blocks_settlement (s : RState) (now : ℤ) (rand : ℚ) :
    ((∃ d ∈ s.dice, d.suspended = true) → (checkSettled now rand s).2 = none) ∧
    (∀ rs, (checkSettled now rand s).2 = some rs →
      s.dice ≠ [] ∧
      ∀ d ∈ (checkSettled now rand s).1.dice, d.settled = true ∧ d.suspended = false) := by
  constructor
  · intro ⟨d, hd, hsusp⟩
    apply checkSettled_none_of_all_false
    rw [List.all_eq_false]
    refine ⟨checkDie now d, List.mem_map_of_mem _ hd, ?_⟩
    rw [checkDie_suspended_eq now d hsusp]
    simp
  · intro rs hrs
    have hsome := (checkSettled_some_iff now rand s).mp (by rw [hrs]; rfl)
    refine ⟨hsome.2.1, ?_⟩
    intro d hd
    rw [checkSettled_dice_eq] at hd
    obtain ⟨x, hx, rfl⟩ := List.mem_map.mp hd
    obtain ⟨d0, hd0, rfl⟩ := List.mem_map.mp hx
    exact checkDie_snd_true
      (List.all_eq_true.mp hsome.1 (checkDie now d0) (List.mem_map_of_mem _ hd0))

/-- Witness for C6: a pool holding one suspended d20 and one settled d4;
no firing happens even though the non-suspended die is settled. -/
theorem suspended_blocks_settlement_witness :
    (∃ d ∈ (mkState [dieStill, dieHeld]).dice, d.suspended = true) ∧
    (checkSettled 100 0 (mkState [dieStill, dieHeld])).2 = none :=
  ⟨by decide,
    (suspended_blocks_settlement (mkState [dieStill, dieHeld]) 100 0).1 (by decide)⟩

/-- C10: clearDice leaves the registered callback in place, and the settle
callback can only fire while at least one die is tracked: with an empty
pool the check returns none, and a fire implies the pool was non-empty. -/
theorem callback_needs_nonempty_pool (s : RState) (now : ℤ) (rand : ℚ) :
    (clearDice s).settleCallback = s.settleCallback ∧
    (s.dice = [] → (checkSettled now rand s).2 = none) ∧
    (∀ rs, (checkSettled now rand s).2 = some rs → s.dice ≠ []) := by
  refine ⟨rfl, ?_, ?_⟩
  · intro hnil
    simp only [checkSettled]
    split
    · rename_i hc
      rw [hnil] at hc
      simp at hc
    · rfl
  · intro rs hrs
    exact ((checkSettled_some_iff now rand s).mp (by rw [hrs]; rfl)).2.1

/-- Witness for C10: the cleared one-die pool keeps its callback and its
empty pool never fires. -/
theorem callback_needs_nonempty_pool_witness :
    (clearDice (mkState [dieFast])).settleCallback = (mkState [dieFast]).settleCallback ∧
    (clearDice (mkState [dieFast])).dice = [] ∧
    (checkSettled 9999 0 (clearDice (mkState [dieFast]))).2 = none :=
  ⟨(callback_needs_nonempty_pool (mkState [dieFast]) 9999 0).1,
    rfl,
    (callback_needs_nonempty_pool (clearDice (mkState [dieFast])) 9999 0).2.1 rfl⟩

theorem notMem_foldl_erase {α β : Type} [DecidableEq α] (f : β → α) (a : α) :
    ∀ (l : List β) (w : List α), a ∉ w →
      a ∉ l.foldl (fun acc d => acc.erase (f d)) w := by
  intro l
  induction l with
  | nil => intro w h; simpa using h
  | cons b l ih =>
      intro w h
      simp only [List.foldl_cons]
      exact ih _ (fun hm => h (List.mem_of_mem_erase hm))

theorem erased_by_foldl_erase {α β : Type} [DecidableEq α] (f : β → α) :
    ∀ (l : List β) (w : List α), w.Nodup →
      ∀ x ∈ l, f x ∉ l.foldl (fun acc d => acc.erase (f d)) w := by
  intro l
  induction l with
  | nil => intro w _ x hx; simp at hx
  | cons b l ih =>
      intro w hw x hx
      simp only [List.foldl_cons]
      rcases List.mem_cons.mp hx with hx | hx
      · subst hx
        apply notMem_foldl_erase
        intro hm
        exact ((hw.mem_erase_iff.mp hm).1 rfl).elim
      · exact ih (w.erase (f b)) (hw.erase _) x hx

/-- C7: after clearDice the tracked count is zero and every previously
tracked die's body is gone from the physics world and its mesh gone from
the scene (assuming, as the source maintains, that the world and scene hold
no duplicate objects); clearing again — or clearing an initially empty
pool — is a no-op and in particular cannot error (the model is total). -/
theorem clearDice_complete_and_idempotent (s : RState)
    (hw : s.worldBodies.Nodup) (hm : s.sceneMeshes.Nodup) :
    getDiceCount (clearDice s) = 0 ∧
    (∀ d ∈ s.dice, d.bodyId ∉ (clearDice s).worldBodies ∧
      d.meshId ∉ (clearDice s).sceneMeshes) ∧
    clearDice (clearDice s) = clearDice s ∧
    (s.dice = [] → clearDice s = s) := by
  refine ⟨rfl, ?_, rfl, ?_⟩
  · intro d hd
    exact ⟨erased_by_foldl_erase Die.bodyId s.dice s.worldBodies hw d hd,
      erased_by_foldl_erase Die.meshId s.dice s.sceneMeshes hm d hd⟩
  · intro hnil
    cases s with
    | mk dice sc wb cb rbp fns =>
        cases hnil
        rfl

/-- Witness for C7: a two-die pool with distinct mesh and body ids. -/
theorem clearDice_complete_and_idempotent_witness :
    ((mkState [dieFast, dieHeld]).worldBodies.Nodup ∧
      (mkState [dieFast, dieHeld]).sceneMeshes.Nodup) ∧
    (getDiceCount (clearDice (mkState [dieFast, dieHeld])) = 0 ∧
      (∀ d ∈ (mkState [dieFast, dieHeld]).dice,
        d.bodyId ∉ (clearDice (mkState [dieFast, dieHeld])).worldBodies ∧
        d.meshId ∉ (clearDice (mkState [dieFast, dieHeld])).sceneMeshes) ∧
      clearDice (clearDice (mkState [dieFast, dieHeld])) =
        clearDice (mkState [dieFast, dieHeld]) ∧
      ((mkState [dieFast, dieHeld]).dice = [] →
        clearDice (mkState [dieFast, dieHeld]) = mkState [dieFast, dieHeld])) :=
  ⟨⟨by decide, by decide⟩,
    clearDice_complete_and_idempotent (mkState [dieFast, dieHeld])
      (by decide) (by decide)⟩

/-- C8: with physics results enabled and an empty (or missing) face-normal
table, getDieValue falls back to the uniform RNG draw over 1..sides: it
returns floor(rand * sides) + 1, which lies in [1, sides] for every
rand ∈ [0, 1); the same bound holds for the non-physics fallback used when
no preroll value exists.  Resolution is a total function — no mode can
fail to produce a value. -/
theorem empty_table_uniform_fallback (rand : ℚ) (d : Die)
    (h0 : 0 ≤ rand) (h1 : rand < 1) :
    getDieValue true [] rand d = randFallback rand d.type.sides ∧
    (d.prerollValue = none → getDieValue false [] rand d = randFallback rand d.type.sides) ∧
    1 ≤ randFallback rand d.type.sides ∧
    randFallback rand d.type.sides ≤ (d.type.sides : ℤ) := by
  have hsides : 0 < (d.type.sides : ℚ) := by
    cases d.type <;> norm_num [DieType.sides]
  refine ⟨by simp [getDieValue], fun hp => by simp [getDieValue, hp], ?_, ?_⟩
  · have hnn : (0 : ℤ) ≤ ⌊rand * (d.type.sides : ℚ)⌋ :=
      Int.floor_nonneg.mpr (mul_nonneg h0 (le_of_lt hsides))
    unfold randFallback
    omega
  · have hlt : rand * (d.type.sides : ℚ) < ((d.type.sides : ℤ) : ℚ) := by
      push_cast
      calc rand * (d.type.sides : ℚ) < 1 * (d.type.sides : ℚ) :=
            mul_lt_mul_of_pos_right h1 hsides
        _ = (d.type.sides : ℚ) := one_mul _
    have hfl : ⌊rand * (d.type.sides : ℚ)⌋ < (d.type.sides : ℤ) :=
      Int.floor_lt.mpr hlt
    unfold randFallback
    omega

/-- Witness for C8: rand = 0 on the d6 yields a value in [1, 6]. -/
theorem empty_table_uniform_fallback_witness :
    ((0 : ℚ) ≤ 0 ∧ (0 : ℚ) < 1) ∧
    (getDieValue true [] 0 dieFast = randFallback 0 dieFast.type.sides ∧
      (dieFast.prerollValue = none →
        getDieValue false [] 0 dieFast = randFallback 0 dieFast.type.sides) ∧
      1 ≤ randFallback 0 dieFast.type.sides ∧
      randFallback 0 dieFast.type.sides ≤ (dieFast.type.sides : ℤ)) :=
  ⟨⟨by decide, by decide⟩,
    empty_table_uniform_fallback 0 dieFast (by decide) (by decide)⟩

theorem stepSample_eq (d : Die) (smp : Sample)
    (hs : d.suspended = false) (hnt : ¬ maxWaitTime < smp.now - d.spawnTime) :
    stepSample d smp =
      if lowMotion smp then
        if settleFramesRequired ≤ d.settleFrames + 1 then
          { d with velocity := smp.vel, angularVelocity := smp.angVel,
                   settleFrames := d.settleFrames + 1, settled := true }
        else
          { d with velocity := smp.vel, angularVelocity := smp.angVel,
                   settleFrames := d.settleFrames + 1 }
      else
        { d with velocity := smp.vel, angularVelocity := smp.angVel,
                 settled := false, settleFrames := 0 } := by
  by_cases hlow : lowMotion smp
  · by_cases hsf : settleFramesRequired ≤ d.settleFrames + 1
    · simp [stepSample, checkDie, hs, hnt, hlow, hlow.1, hlow.2, hsf]
    · simp [stepSample, checkDie, hs, hnt, hlow, hlow.1, hlow.2, hsf]
  · have hlow' : ¬ (smp.vel < settleThreshold ∧ smp.angVel < settleThreshold) := hlow
    simp [stepSample, checkDie, hs, hnt, hlow, hlow']

theorem runDieChecks_invariant :
    ∀ (samples : List Sample) (d : Die),
      d.suspended = false →
      (∀ smp ∈ samples, ¬ maxWaitTime < smp.now - d.spawnTime) →
      d.settled = decide (settleFramesRequired ≤ d.settleFrames) →
      (runDieChecks d samples).suspended = false ∧
      (runDieChecks d samples).spawnTime = d.spawnTime ∧
      (runDieChecks d samples).settled =
        decide (settleFramesRequired ≤ (runDieChecks d samples).settleFrames) ∧
      (runDieChecks d samples).settleFrames =
        samples.foldl (fun n smp => if lowMotion smp then n + 1 else 0) d.settleFrames := by
  intro samples
  induction samples with
  | nil => intro d hs _ hinv; exact ⟨hs, rfl, hinv, rfl⟩
  | cons smp rest ih =>
      intro d hs htime hinv
      have hnt : ¬ maxWaitTime < smp.now - d.spawnTime := htime smp (by simp)
      have hrun : runDieChecks d (smp :: rest) = runDieChecks (stepSample d smp) rest := rfl
      have hstep := stepSample_eq d smp hs hnt
      have hd1 : (stepSample d smp).suspended = false ∧
          (stepSample d smp).spawnTime = d.spawnTime ∧
          (stepSample d smp).settled =
            decide (settleFramesRequired ≤ (stepSample d smp).settleFrames) ∧
          (stepSample d smp).settleFrames =
            (if lowMotion smp then d.settleFrames + 1 else 0) := by
        rw [hstep]
        by_cases hlow : lowMotion smp
        · by_cases hsf : settleFramesRequired ≤ d.settleFrames + 1
          · simp [hlow, hsf, hs]
          · have h9 : ¬ settleFramesRequired ≤ d.settleFrames := by omega
            simp [hlow, hsf, hs, hinv, h9]
        · simp [hlow, hs, settleFramesRequired]
      obtain ⟨h1, h2, h3, h4⟩ := hd1
      have := ih (stepSample d smp) h1
        (fun s hsm => by rw [h2]; exact htime s (List.mem_cons_of_mem _ hsm)) h3
      rw [hrun]
      refine ⟨this.1, this.2.1.trans h2, this.2.2.1, ?_⟩
      rw [this.2.2.2, h4]
      simp [List.foldl_cons]

/-- C9: before the timeout, a non-suspended die is marked settled exactly
when both velocity magnitudes have stayed below the 0.5 threshold for 10
consecutive checks: over any run of in-time checks starting from a fresh
die, the settleFrames counter equals the length of the trailing run of
low-motion frames and the settled flag holds iff that run has reached 10;
and any single check at or above the threshold resets the counter to zero
and marks the die unsettled. -/
theorem consecutive_low_motion_settles (d : Die) (samples : List Sample)
    (hs : d.suspended = false) (hf : d.settleFrames = 0) (hset : d.settled = false)
    (htime : ∀ smp ∈ samples, ¬ maxWaitTime < smp.now - d.spawnTime) :
    ((runDieChecks d samples).settled = true ↔
      settleFramesRequired ≤ trailingLowCount samples) ∧
    (runDieChecks d samples).settleFrames = trailingLowCount samples ∧
    (∀ (e : Die) (smp : Sample), e.suspended = false →
      ¬ maxWaitTime < smp.now - e.spawnTime → ¬ lowMotion smp →
      (stepSample e smp).settled = false ∧ (stepSample e smp).settleFrames = 0) := by
  have hinv : d.settled = decide (settleFramesRequired ≤ d.settleFrames) := by
    rw [hf, hset]
    rfl
  obtain ⟨_, _, hsettled, hframes⟩ := runDieChecks_invariant samples d hs htime hinv
  rw [hf] at hframes
  have hcount : (runDieChecks d samples).settleFrames = trailingLowCount samples := hframes
  refine ⟨?_, hcount, ?_⟩
  · rw [hsettled, hcount]
    simp
  · intro e smp hse hnte hlow
    rw [stepSample_eq e smp hse hnte, if_neg hlow]
    exact ⟨rfl, rfl⟩

/-- Witness for C9: ten consecutive motionless frames settle a fresh d6
whose preroll die starts unsettled; trailingLowCount of ten calm samples
is ten. -/
theorem consecutive_low_motion_settles_witness :
    (dieFast.suspended = false ∧ dieFast.settleFrames = 0 ∧ dieFast.settled = false ∧
      (∀ smp ∈ List.replicate 10 calmSample,
        ¬ maxWaitTime < smp.now - dieFast.spawnTime)) ∧
    ((runDieChecks dieFast (List.replicate 10 calmSample)).settled = true ↔
      settleFramesRequired ≤ trailingLowCount (List.replicate 10 calmSample)) ∧
    (runDieChecks dieFast (List.replicate 10 calmSample)).settleFrames =
      trailingLowCount (List.replicate 10 calmSample) :=
  ⟨⟨rfl, rfl, rfl, by decide⟩,
    (consecutive_low_motion_settles dieFast (List.replicate 10 calmSample)
      rfl rfl rfl (by decide)).1,
    (consecutive_low_motion_settles dieFast (List.replicate 10 calmSample)
      rfl rfl rfl (by decide)).2.1⟩

theorem foldl_eq_specSelect (q : Quat) :
    ∀ (l : List FaceNormal) (b : ℚ) (v : ℤ),
      l.foldl
        (fun acc fn =>
          match acc.1 with
          | none => (some (entryKey q fn), fn.value)
          | some best =>
              if best < entryKey q fn then (some (entryKey q fn), fn.value) else acc)
        ((some b : Option ℚ), v)
      = (some (specSelect q b v l).1, (specSelect q b v l).2) := by
  intro l
  induction l with
  | nil => intro b v; rfl
  | cons fn rest ih =>
      intro b v
      by_cases hlt : b < entryKey q fn
      · simp only [List.foldl_cons, specSelect, if_pos hlt]
        exact ih (entryKey q fn) fn.value
      · simp only [List.foldl_cons, specSelect, if_neg hlt]
        exact ih b v

theorem specSelect_first_argmax (q : Quat) :
    ∀ (l : List FaceNormal) (b : ℚ) (v : ℤ),
      ((specSelect q b v l).1 = b ∧ (specSelect q b v l).2 = v ∧
        ∀ g ∈ l, entryKey q g ≤ b) ∨
      (∃ l₁ fn l₂, l = l₁ ++ fn :: l₂ ∧
        (specSelect q b v l).1 = entryKey q fn ∧
        (specSelect q b v l).2 = fn.value ∧
        b < entryKey q fn ∧
        (∀ g ∈ l₁, entryKey q g < entryKey q fn) ∧
        (∀ g ∈ l₂, entryKey q g ≤ entryKey q fn)) := by
  intro l
  induction l with
  | nil => intro b v; left; exact ⟨rfl, rfl, by simp⟩
  | cons fn rest ih =>
      intro b v
      by_cases hlt : b < entryKey q fn
      · simp only [specSelect, if_pos hlt]
        rcases ih (entryKey q fn) fn.value with ⟨h1, h2, h3⟩ | ⟨l₁, g, l₂, hsp, h1, h2, hb, hbef, haft⟩
        · right
          exact ⟨[], fn, rest, rfl, h1, h2, hlt, by simp, h3⟩
        · right
          refine ⟨fn :: l₁, g, l₂, by rw [hsp, List.cons_append], h1, h2, lt_trans hlt hb, ?_, haft⟩
          intro x hx
          rcases List.mem_cons.mp hx with hx | hx
          · subst hx; exact hb
          · exact hbef x hx
      · simp only [specSelect, if_neg hlt]
        rcases ih b v with ⟨h1, h2, h3⟩ | ⟨l₁, g, l₂, hsp, h1, h2, hb, hbef, haft⟩
        · left
          refine ⟨h1, h2, ?_⟩
          intro x hx
          rcases List.mem_cons.mp hx with hx | hx
          · subst hx; exact le_of_not_lt hlt
          · exact h3 x hx
        · right
          refine ⟨fn :: l₁, g, l₂, by rw [hsp, List.cons_append], h1, h2, hb, ?_, haft⟩
          intro x hx
          rcases List.mem_cons.mp hx with hx | hx
          · subst hx; exact lt_of_le_of_lt (le_of_not_lt hlt) hb
          · exact hbef x hx

theorem getDieValue_physics_eq (rand : ℚ) (d : Die) (fn₀ : FaceNormal)
    (rest : List FaceNormal) :
    getDieValue true (fn₀ :: rest) rand d =
      (specSelect d.quat (entryKey d.quat fn₀) fn₀.value rest).2 := by
  have h := foldl_eq_specSelect d.quat rest (entryKey d.quat fn₀) fn₀.value
  simp only [getDieValue, Bool.not_true, List.isEmpty_cons, List.foldl_cons]
  rw [if_neg (by simp)]
  simp only [h]
  simp

/-- C4: with physics results enabled and a non-empty face-normal table, the
resolved value is the value of the table entry whose normal, rotated by the
die's world orientation, is best aligned with world up (the `entryKey`
order is the order of the normalized dot products with (0,1,0)): the chosen
entry's key is maximal over the whole table, and every entry encountered
before it has a strictly smaller key — so on ties the first-encountered
entry wins, as the code compares with strict greater-than. -/
theorem physics_value_is_first_argmax (fns : List FaceNormal) (rand : ℚ)
    (d : Die) (hne : fns ≠ []) :
    ∃ l₁ fn l₂, fns = l₁ ++ fn :: l₂ ∧
      getDieValue true fns rand d = fn.value ∧
      (∀ g ∈ l₁, entryKey d.quat g < entryKey d.quat fn) ∧
      (∀ g ∈ l₂, entryKey d.quat g ≤ entryKey d.quat fn) := by
  cases fns with
  | nil => exact absurd rfl hne
  | cons fn₀ rest =>
      have hval := getDieValue_physics_eq rand d fn₀ rest
      rcases specSelect_first_argmax d.quat rest (entryKey d.quat fn₀) fn₀.value
        with ⟨_, h2, h3⟩ | ⟨l₁, fn, l₂, hsp, _, h2, hb, hbef, haft⟩
      · exact ⟨[], fn₀, rest, rfl, by rw [hval, h2], by simp, h3⟩
      · refine ⟨fn₀ :: l₁, fn, l₂, by rw [hsp, List.cons_append], by rw [hval, h2], ?_, haft⟩
        intro x hx
        rcases List.mem_cons.mp hx with hx | hx
        · subst hx; exact hb
        · exact hbef x hx

/-- Witness for C4 at the identity orientation over a two-entry table. -/
theorem physics_value_is_first_argmax_witness :
    (tableUpDown ≠ []) ∧
    (∃ l₁ fn l₂, tableUpDown = l₁ ++ fn :: l₂ ∧
      getDieValue true tableUpDown 0 dieFast = fn.value ∧
      (∀ g ∈ l₁, entryKey dieFast.quat g < entryKey dieFast.quat fn) ∧
      (∀ g ∈ l₂, entryKey dieFast.quat g ≤ entryKey dieFast.quat fn)) :=
  ⟨by simp [tableUpDown],
    physics_value_is_first_argmax tableUpDown 0 dieFast (by simp [tableUpDown])⟩

/-- C5: for every die type the Face-Normal Table built from its geometry
has exactly as many unique entries as the die has sides, except the
5-sided die whose table has exactly 10 entries labelled (index mod 5) + 1,
so each value 1..5 appears exactly twice. -/
theorem face_table_counts :
    (∀ t : DieType,
      (faceNormalTable t).length = if t = DieType.d5 then 10 else t.sides) ∧
    ((faceNormalTable DieType.d5).map Prod.snd =
      [1, 2, 3, 4, 5, 1, 2, 3, 4, 5]) ∧
    (∀ v : Fin 5,
      ((faceNormalTable DieType.d5).map Prod.snd).count ((v : ℕ) + 1 : ℤ) = 2) := by
  decide

/-!
Soundness of the two exact representations: the strictly monotone
x * |x| encoding of the normalized dot products used by entryKey, and the
sign procedures of the geometry ring (so sameRay's positivity test really
decides the sign of the corresponding real number).
-/

theorem mulAbs_strictMono : StrictMono (fun x : ℚ => x * |x|) := by
  intro a b hab
  rcases le_or_lt 0 a with ha | ha
  · have hb : 0 < b := lt_of_le_of_lt ha hab
    simp only [abs_of_nonneg ha, abs_of_pos hb]
    exact mul_self_lt_mul_self ha hab
  · rcases le_or_lt 0 b with hb | hb
    · have h1 : a * |a| < 0 := by
        rw [abs_of_neg ha]
        nlinarith
      have h2 : 0 ≤ b * |b| := mul_nonneg hb (abs_nonneg b)
      exact lt_of_lt_of_le h1 h2
    · simp only [abs_of_neg ha, abs_of_neg hb]
      nlinarith

theorem upAlignKey_represents_dot (w : VecQ) :
    ((upAlignKey w : ℚ) : ℝ) =
      ((w.y : ℚ) : ℝ) / Real.sqrt ((w.normSq : ℚ) : ℝ) *
        |((w.y : ℚ) : ℝ) / Real.sqrt ((w.normSq : ℚ) : ℝ)| := by
  by_cases h : w.normSq = 0
  · have hy : (w.y : ℚ) = 0 := by
      have h' := h
      unfold VecQ.normSq at h'
      nlinarith [mul_self_nonneg w.x, mul_self_nonneg w.y, mul_self_nonneg w.z]
    simp [upAlignKey, h, hy]
  · have hnn : (0 : ℚ) ≤ w.normSq := by
      unfold VecQ.normSq
      nlinarith [mul_self_nonneg w.x, mul_self_nonneg w.y, mul_self_nonneg w.z]
    have hpos : (0 : ℚ) < w.normSq := lt_of_le_of_ne hnn (Ne.symm h)
    have hposr : (0 : ℝ) < ((w.normSq : ℚ) : ℝ) := by exact_mod_cast hpos
    have hsq : Real.sqrt ((w.normSq : ℚ) : ℝ) * Real.sqrt ((w.normSq : ℚ) : ℝ) =
        ((w.normSq : ℚ) : ℝ) := Real.mul_self_sqrt (le_of_lt hposr)
    have hsqrtpos : (0 : ℝ) < Real.sqrt ((w.normSq : ℚ) : ℝ) :=
      Real.sqrt_pos.mpr hposr
    rw [abs_div, abs_of_pos hsqrtpos, div_mul_div_comm, hsq]
    unfold upAlignKey
    rw [if_neg h]
    push_cast
    rfl

theorem add_mul_pos_iff_of_bpos {A B R : ℝ} (hR : 0 < R) (hB : 0 < B) :
    0 < A + B * R ↔ (0 ≤ A ∨ A * A < (R * R) * (B * B)) := by
  constructor
  · intro hpos
    by_cases ha : 0 ≤ A
    · left; exact ha
    · right
      push_neg at ha
      have h2 : 0 < B * R - A := by nlinarith [mul_pos hB hR]
      nlinarith [mul_pos hpos h2]
  · rintro (ha | hlt)
    · nlinarith [mul_pos hB hR]
    · by_contra hc
      push_neg at hc
      have h1 : 0 < B * R := mul_pos hB hR
      have hA : A < 0 := by nlinarith
      nlinarith [mul_nonneg (neg_nonneg.mpr hc) h1.le,
        mul_nonneg (neg_nonneg.mpr hc) (neg_nonneg.mpr hA.le)]

theorem add_mul_pos_iff_of_bneg {A B R : ℝ} (hR : 0 < R) (hB : B < 0) :
    0 < A + B * R ↔ (0 < A ∧ (R * R) * (B * B) < A * A) := by
  constructor
  · intro hpos
    have h1 : 0 < -B * R := mul_pos (neg_pos.mpr hB) hR
    have hA : 0 < A := by nlinarith
    refine ⟨hA, ?_⟩
    have h2 : 0 < A - B * R := by nlinarith
    nlinarith [mul_pos hpos h2]
  · rintro ⟨hA, hlt⟩
    by_contra hc
    push_neg at hc
    have h1 : 0 < -B * R := mul_pos (neg_pos.mpr hB) hR
    nlinarith [mul_nonneg (neg_nonneg.mpr hc) h1.le,
      mul_nonneg (neg_nonneg.mpr hc) hA.le]

theorem Z5.cast_mul_eval (x y : Z5) :
    ((x * y).a : ℝ) + ((x * y).b : ℝ) * Real.sqrt 5 =
      ((x.a : ℝ) + (x.b : ℝ) * Real.sqrt 5) *
        ((y.a : ℝ) + (y.b : ℝ) * Real.sqrt 5) := by
  have h2 : Real.sqrt 5 ^ 2 = 5 := Real.sq_sqrt (by norm_num)
  show ((x.a * y.a + 5 * (x.b * y.b) : ℤ) : ℝ) +
      ((x.a * y.b + x.b * y.a : ℤ) : ℝ) * Real.sqrt 5 = _
  push_cast
  linear_combination (-((x.b : ℝ) * (y.b : ℝ))) * h2

theorem Z5.cast_sub_eval (x y : Z5) :
    ((x - y).a : ℝ) + ((x - y).b : ℝ) * Real.sqrt 5 =
      (((x.a : ℝ) + (x.b : ℝ) * Real.sqrt 5) -
        ((y.a : ℝ) + (y.b : ℝ) * Real.sqrt 5)) := by
  show ((x.a - y.a : ℤ) : ℝ) + ((x.b - y.b : ℤ) : ℝ) * Real.sqrt 5 = _
  push_cast
  ring

theorem Z5.cast_eq_zero_iff (x : Z5) :
    (x.a : ℝ) + (x.b : ℝ) * Real.sqrt 5 = 0 ↔ x = Z5.zero := by
  constructor
  · intro h
    have h5irr : Irrational (Real.sqrt 5) := by
      have hns : ¬ IsSquare (5 : ℕ) := by
        rintro ⟨r, hr⟩
        rcases (by omega : r ≤ 2 ∨ 3 ≤ r) with h4 | h4
        · have := Nat.mul_le_mul h4 h4
          omega
        · have := Nat.mul_le_mul h4 h4
          omega
      have := (irrational_sqrt_natCast_iff (n := 5)).mpr hns
      simpa using this
    by_cases hb : x.b = 0
    · have ha : (x.a : ℝ) = 0 := by rw [hb] at h; simpa using h
      have ha' : x.a = 0 := by exact_mod_cast ha
      cases x
      simp_all [Z5.zero]
    · exfalso
      have hbR : (x.b : ℝ) ≠ 0 := Int.cast_ne_zero.mpr hb
      have hrt : Real.sqrt 5 = ((-x.a : ℚ) / (x.b : ℚ) : ℚ) := by
        have hmul : (x.b : ℝ) * Real.sqrt 5 = -(x.a : ℝ) := by linarith
        push_cast
        rw [eq_div_iff hbR]
        linear_combination hmul
      exact h5irr ⟨_, hrt.symm⟩
  · intro h
    rw [h]
    simp [Z5.zero]

theorem Z5.posB_sound_sqrt5 (x : Z5) :
    x.posB = true ↔ 0 < (x.a : ℝ) + (x.b : ℝ) * Real.sqrt 5 := by
  have hs : Real.sqrt 5 * Real.sqrt 5 = 5 := Real.mul_self_sqrt (by norm_num)
  have hsp : (0 : ℝ) < Real.sqrt 5 := Real.sqrt_pos.mpr (by norm_num)
  rcases lt_trichotomy x.b 0 with hb | hb | hb
  · have hb0 : ¬ x.b = 0 := by omega
    have hb1 : ¬ 0 < x.b := by omega
    have hBneg : (x.b : ℝ) < 0 := by exact_mod_cast hb
    rw [show x.posB = ((decide (0 < x.a)) && decide (5 * (x.b * x.b) < x.a * x.a))
        from by simp [Z5.posB, hb0, hb1]]
    rw [add_mul_pos_iff_of_bneg hsp hBneg, hs]
    simp only [Bool.and_eq_true, decide_eq_true_eq]
    constructor
    · rintro ⟨h1, h2⟩
      exact ⟨by exact_mod_cast h1, by exact_mod_cast h2⟩
    · rintro ⟨h1, h2⟩
      exact ⟨by exact_mod_cast h1, by exact_mod_cast h2⟩
  · have hB0 : (x.b : ℝ) = 0 := by exact_mod_cast hb
    rw [show x.posB = decide (0 < x.a) from by simp [Z5.posB, hb]]
    rw [hB0]
    simp only [zero_mul, add_zero, decide_eq_true_eq]
    exact ⟨fun h => by exact_mod_cast h, fun h => by exact_mod_cast h⟩
  · have hb0 : ¬ x.b = 0 := by omega
    have hBpos : (0 : ℝ) < (x.b : ℝ) := by exact_mod_cast hb
    rw [show x.posB = ((decide (0 ≤ x.a)) || decide (x.a * x.a < 5 * (x.b * x.b)))
        from by simp [Z5.posB, hb0, hb]]
    rw [add_mul_pos_iff_of_bpos hsp hBpos, hs]
    simp only [Bool.or_eq_true, decide_eq_true_eq]
    constructor
    · rintro (h1 | h2)
      · exact Or.inl (by exact_mod_cast h1)
      · exact Or.inr (by exact_mod_cast h2)
    · rintro (h1 | h2)
      · exact Or.inl (by exact_mod_cast h1)
      · exact Or.inr (by exact_mod_cast h2)

theorem Z5.nonnegB_correct (x : Z5) :
    x.nonnegB = true ↔ 0 ≤ (x.a : ℝ) + (x.b : ℝ) * Real.sqrt 5 := by
  unfold Z5.nonnegB
  simp only [Bool.or_eq_true, decide_eq_true_eq]
  constructor
  · rintro (h | h)
    · rw [show x = Z5.zero from by simpa using h]
      simp [Z5.zero]
    · exact le_of_lt ((Z5.posB_sound_sqrt5 x).mp h)
  · intro h
    rcases eq_or_lt_of_le h with heq | hlt
    · left
      simpa using (Z5.cast_eq_zero_iff x).mp heq.symm
    · right
      exact (Z5.posB_sound_sqrt5 x).mpr hlt

theorem GS.posB_sound_tower (x : GS) :
    x.posB = true ↔
      0 < ((x.u.a : ℝ) + (x.u.b : ℝ) * Real.sqrt 5) +
        ((x.v.a : ℝ) + (x.v.b : ℝ) * Real.sqrt 5) *
          Real.sqrt (10 + 2 * Real.sqrt 5) := by
  have hsp : (0 : ℝ) < Real.sqrt 5 := Real.sqrt_pos.mpr (by norm_num)
  have hσpos : (0 : ℝ) < 10 + 2 * Real.sqrt 5 := by nlinarith
  have hS0 : (0 : ℝ) < Real.sqrt (10 + 2 * Real.sqrt 5) := Real.sqrt_pos.mpr hσpos
  have hS0sq : Real.sqrt (10 + 2 * Real.sqrt 5) * Real.sqrt (10 + 2 * Real.sqrt 5) =
      10 + 2 * Real.sqrt 5 := Real.mul_self_sqrt hσpos.le
  have hσcast : ((GS.sigma.a : ℝ) + (GS.sigma.b : ℝ) * Real.sqrt 5) =
      10 + 2 * Real.sqrt 5 := by
    norm_num [GS.sigma]
  by_cases hv0 : x.v = Z5.zero
  · rw [show x.posB = x.u.posB from by simp [GS.posB, hv0]]
    rw [hv0]
    simpa [Z5.zero] using Z5.posB_sound_sqrt5 x.u
  · by_cases hvpos : x.v.posB = true
    · have hB : 0 < (x.v.a : ℝ) + (x.v.b : ℝ) * Real.sqrt 5 :=
        (Z5.posB_sound_sqrt5 x.v).mp hvpos
      rw [show x.posB = (x.u.nonnegB ||
          (GS.sigma * (x.v * x.v) - x.u * x.u).posB) from by simp [GS.posB, hv0, hvpos]]
      rw [add_mul_pos_iff_of_bpos hS0 hB, hS0sq]
      have hEval : (((GS.sigma * (x.v * x.v) - x.u * x.u).a : ℝ) +
          ((GS.sigma * (x.v * x.v) - x.u * x.u).b : ℝ) * Real.sqrt 5) =
          (10 + 2 * Real.sqrt 5) *
            (((x.v.a : ℝ) + (x.v.b : ℝ) * Real.sqrt 5) *
              ((x.v.a : ℝ) + (x.v.b : ℝ) * Real.sqrt 5)) -
          ((x.u.a : ℝ) + (x.u.b : ℝ) * Real.sqrt 5) *
            ((x.u.a : ℝ) + (x.u.b : ℝ) * Real.sqrt 5) := by
        rw [Z5.cast_sub_eval, Z5.cast_mul_eval, Z5.cast_mul_eval, Z5.cast_mul_eval, hσcast]
      simp only [Bool.or_eq_true]
      constructor
      · rintro (h | h)
        · exact Or.inl ((Z5.nonnegB_correct x.u).mp h)
        · have := (Z5.posB_sound_sqrt5 _).mp h
          rw [hEval] at this
          exact Or.inr (by linarith)
      · rintro (h | h)
        · exact Or.inl ((Z5.nonnegB_correct x.u).mpr h)
        · refine Or.inr ((Z5.posB_sound_sqrt5 _).mpr ?_)
          rw [hEval]
          linarith
    · have hBle : ¬ 0 < (x.v.a : ℝ) + (x.v.b : ℝ) * Real.sqrt 5 :=
        fun h => hvpos ((Z5.posB_sound_sqrt5 x.v).mpr h)
      have hBne : (x.v.a : ℝ) + (x.v.b : ℝ) * Real.sqrt 5 ≠ 0 :=
        fun h => hv0 ((Z5.cast_eq_zero_iff x.v).mp h)
      have hB : (x.v.a : ℝ) + (x.v.b : ℝ) * Real.sqrt 5 < 0 :=
        lt_of_le_of_ne (le_of_not_lt hBle) hBne
      rw [show x.posB = (x.u.posB &&
          (x.u * x.u - GS.sigma * (x.v * x.v)).posB) from by simp [GS.posB, hv0, hvpos]]
      rw [add_mul_pos_iff_of_bneg hS0 hB, hS0sq]
      have hEval : (((x.u * x.u - GS.sigma * (x.v * x.v)).a : ℝ) +
          ((x.u * x.u - GS.sigma * (x.v * x.v)).b : ℝ) * Real.sqrt 5) =
          ((x.u.a : ℝ) + (x.u.b : ℝ) * Real.sqrt 5) *
            ((x.u.a : ℝ) + (x.u.b : ℝ) * Real.sqrt 5) -
          (10 + 2 * Real.sqrt 5) *
            (((x.v.a : ℝ) + (x.v.b : ℝ) * Real.sqrt 5) *
              ((x.v.a : ℝ) + (x.v.b : ℝ) * Real.sqrt 5)) := by
        rw [Z5.cast_sub_eval, Z5.cast_mul_eval, Z5.cast_mul_eval, Z5.cast_mul_eval, hσcast]
      simp only [Bool.and_eq_true]
      constructor
      · rintro ⟨h1, h2⟩
        have := (Z5.posB_sound_sqrt5 _).mp h2
        rw [hEval] at this
        exact ⟨(Z5.posB_sound_sqrt5 x.u).mp h1, by linarith⟩
      · rintro ⟨h1, h2⟩
        refine ⟨(Z5.posB_sound_sqrt5 x.u).mpr h1, (Z5.posB_sound_sqrt5 _).mpr ?_⟩
        rw [hEval]
        linarith
